import Mathlib

/-!
Formal model of `viser_proxy_manager.py` (class `ViserProxyManager`).

The Python class keeps three pieces of mutable state: a port range
`[_min_port, _max_port]`, a dict `_server_from_session_hash` mapping session
hashes to `viser.ViserServer` instances, and `_last_port`, the last port
handed out.  `start_server` scans the port range round-robin starting at
`_last_port + 1` (with wraparound, computed via Python `%` on the offset),
binds the first free port, creates a server there and records it;
`get_server` is a plain dict lookup; `stop_server` pops the dict entry and
stops the server.  Two FastAPI handlers proxy HTTP requests and WebSocket
connections to the backend recorded for a session hash.

Python dicts are modelled as association lists with unique keys; Python
integers as `Int` (Python `%` with a positive modulus agrees with `Int.emod`);
exceptions as `Except String`.  The operating system is modelled by a
predicate giving the set of busy ports; a small trace semantics (`stepOp`,
`runOps`) tracks which backend servers are live and which ports they hold.
-/

namespace ViserGradioEmbed

/-- Lookup in a Python dict modelled as an association list: `d.get(k)` /
`d[k]`. Returns the value at the first matching key. -/
def mapGet {α : Type} : List (String × α) → String → Option α
  | [], _ => none
  | (k', v) :: rest, k => if k' = k then some v else mapGet rest k

/-- Assignment `d[k] = v` on a Python dict: replaces the value at an existing
key in place, otherwise appends the new binding. -/
def mapSet {α : Type} : List (String × α) → String → α → List (String × α)
  | [], k, v => [(k, v)]
  | (k', v') :: rest, k, v =>
      if k' = k then (k, v) :: rest else (k', v') :: mapSet rest k v

/-- Removal `d.pop(k)` (ignoring the returned value): removes the binding at
the first matching key; leaves the list unchanged when the key is absent. -/
def mapRemove {α : Type} : List (String × α) → String → List (String × α)
  | [], _ => []
  | (k', v') :: rest, k => if k' = k then rest else (k', v') :: mapRemove rest k

/-- Model of a `viser.ViserServer`: the only attribute the proxy manager ever
reads is the port the server was created on. -/
structure ViserServer where
  port : Int
deriving DecidableEq, Repr

/-- `ViserServer.get_port()`. -/
def ViserServer.get_port (s : ViserServer) : Int := s.port

/-- The mutable state of a `ViserProxyManager` instance: the configured port
range, the dict `_server_from_session_hash`, and `_last_port`. -/
structure ManagerState where
  min_port : Int
  max_port : Int
  servers : List (String × ViserServer)
  last_port : Int
deriving DecidableEq, Repr

/-- `ViserProxyManager.__init__`: empty session dict and
`_last_port = min_local_port - 1`. -/
def initManager (min_local_port max_local_port : Int) : ManagerState :=
  { min_port := min_local_port
  , max_port := max_local_port
  , servers := []
  , last_port := min_local_port - 1 }

/-- `port_range_size = self._max_port - self._min_port + 1`. -/
def ManagerState.port_range_size (st : ManagerState) : Int :=
  st.max_port - st.min_port + 1

/-- `start_port = ((self._last_port + 1 - self._min_port) % port_range_size)
+ self._min_port`. -/
def ManagerState.start_port (st : ManagerState) : Int :=
  ((st.last_port + 1 - st.min_port) % st.port_range_size) + st.min_port

/-- The port tried at loop iteration `offset` in `start_server`:
`((start_port - self._min_port + offset) % port_range_size) + self._min_port`. -/
def ManagerState.portAt (st : ManagerState) (offset : Nat) : Int :=
  ((st.start_port - st.min_port + (offset : Int)) % st.port_range_size)
    + st.min_port

/-- The sequence of ports the `for offset in range(port_range_size)` loop of
`start_server` tries, in order. -/
def ManagerState.triedPorts (st : ManagerState) : List Int :=
  (List.range st.port_range_size.toNat).map st.portAt

/-- `ViserProxyManager.start_server`: scan `triedPorts` in order; at the first
port the OS lets us bind (`busy p = false`), create a `ViserServer` on it,
record it in the dict, update `_last_port`, and return the server.  If every
port in the range is busy, raise `RuntimeError`. -/
def start_server (busy : Int → Bool) (st : ManagerState) (server_id : String) :
    Except String (ManagerState × ViserServer) :=
  match st.triedPorts.find? (fun p => ! busy p) with
  | some port =>
      Except.ok
        ( { st with
              servers := mapSet st.servers server_id { port := port }
            , last_port := port }
        , { port := port } )
  | none => Except.error ("No available local ports in range")

/-- `ViserProxyManager.get_server`: `self._server_from_session_hash[server_id]`;
a missing key raises `KeyError`. -/
def get_server (st : ManagerState) (server_id : String) :
    Except String ViserServer :=
  match mapGet st.servers server_id with
  | some s => Except.ok s
  | none => Except.error ("KeyError")

/-- `ViserProxyManager.stop_server`:
`self._server_from_session_hash.pop(server_id).stop()`; `pop` without a
default raises `KeyError` when the key is absent, leaving the dict unchanged. -/
def stop_server (st : ManagerState) (server_id : String) :
    Except String ManagerState :=
  match mapGet st.servers server_id with
  | some _ => Except.ok { st with servers := mapRemove st.servers server_id }
  | none => Except.error ("KeyError")

/-- An HTTP request as the `proxy` handler sees it: method, header dict
(Starlette lower-cases header names), and raw body bytes (kept opaque). -/
structure HttpRequest where
  method : String
  headers : List (String × String)
  body : String
deriving DecidableEq, Repr

/-- An HTTP response: status code, header dict, body bytes. -/
structure HttpResponse where
  status_code : Int
  headers : List (String × String)
  body : String
deriving DecidableEq, Repr

/-- The header rewriting in `proxy`: `headers = dict(request.headers);
headers.pop("host", None); headers["accept-encoding"] = "identity"`. -/
def proxiedHeaders (headers : List (String × String)) :
    List (String × String) :=
  mapSet (mapRemove headers ("host")) ("accept-encoding") ("identity")

/-- The request `proxy` builds for the backend
(`client.build_request(method=..., headers=..., content=await request.body())`):
same method and body, rewritten headers. -/
def proxiedRequest (req : HttpRequest) : HttpRequest :=
  { method := req.method
  , headers := proxiedHeaders req.headers
  , body := req.body }

/-- The FastAPI handler `proxy`: look up the session hash; absent sessions get
a 404 `Response(content="Server not found")`; otherwise send the rewritten
request to the backend listening on the recorded port and return a `Response`
built from the backend's status code, headers and body.  The backend is
modelled as a function from port and request to response. -/
def proxy (st : ManagerState)
    (backend : Int → HttpRequest → HttpResponse)
    (server_id : String) (req : HttpRequest) : HttpResponse :=
  match mapGet st.servers server_id with
  | none =>
      { status_code := 404, headers := [], body := ("Server not found") }
  | some server =>
      let proxied_resp := backend server.get_port (proxiedRequest req)
      { status_code := proxied_resp.status_code
      , headers := proxied_resp.headers
      , body := proxied_resp.body }

/-- Observable actions of the `websocket_proxy` handler, in order. -/
inductive WsAction where
  | accept
  | close (code : Int) (reason : String)
  | connect (port : Int)
  | relay
deriving DecidableEq, Repr

/-- The FastAPI handler `websocket_proxy`, up to the start of the relay loop:
`await websocket.accept()`; look up the session hash; absent sessions get
`websocket.close(code=1008, reason="Not Found")` with no backend connection
attempt; otherwise connect to `ws://127.0.0.1:<port>` and relay. -/
def websocket_proxy (st : ManagerState) (server_id : String) : List WsAction :=
  WsAction.accept ::
    (match mapGet st.servers server_id with
     | none => [WsAction.close 1008 ("Not Found")]
     | some server => [WsAction.connect server.get_port, WsAction.relay])

/-- Session-lifecycle operations driven by the Gradio app (`demo.load` calls
`start_server`, `demo.unload` calls `stop_server`). -/
inductive Op where
  | start (id : String)
  | stop (id : String)
deriving DecidableEq, Repr

/-- A manager together with its environment: the ports currently held by live
backend `ViserServer` processes. -/
structure Sys where
  mgr : ManagerState
  backends : List Int
deriving DecidableEq, Repr

/-- A port is busy (the momentary `s.bind` in `start_server` fails) when some
external process holds it or a live backend server does. -/
def busyOf (ext : Int → Bool) (backends : List Int) (p : Int) : Bool :=
  ext p || backends.any (fun q => decide (q = p))

/-- One lifecycle step.  A `start` runs `start_server` against the current
busy-port set; on success the new server's port becomes held by a live
backend; a raised `RuntimeError` leaves the state unchanged.  A `stop` runs
`stop_server`; on success the stopped server releases its port; the
`KeyError` raised for an absent id leaves the state unchanged. -/
def stepOp (ext : Int → Bool) (s : Sys) (op : Op) : Sys :=
  match op with
  | Op.start id =>
      match start_server (busyOf ext s.backends) s.mgr id with
      | Except.ok (mgr', server) =>
          { mgr := mgr', backends := server.port :: s.backends }
      | Except.error _ => s
  | Op.stop id =>
      match mapGet s.mgr.servers id with
      | some server =>
          { mgr := { s.mgr with servers := mapRemove s.mgr.servers id }
          , backends := s.backends.erase server.port }
      | none => s

/-- Run a sequence of lifecycle operations. -/
def runOps (ext : Int → Bool) (s : Sys) (ops : List Op) : Sys :=
  ops.foldl (stepOp ext) s

/-- A freshly constructed manager with no live backends. -/
def initSys (min_local_port max_local_port : Int) : Sys :=
  { mgr := initManager min_local_port max_local_port, backends := [] }

/-- System invariant: live backend ports are pairwise distinct (at most one
live lease per port), session hashes in the dict are unique (dict semantics),
registered ports are pairwise distinct, and every registered session's port
is held by a live backend. -/
def SysInv (s : Sys) : Prop :=
  s.backends.Nodup ∧
  (s.mgr.servers.map Prod.fst).Nodup ∧
  (s.mgr.servers.map (fun pr => pr.2.port)).Nodup ∧
  (∀ pr ∈ s.mgr.servers, pr.2.port ∈ s.backends)

/-- A concrete manager with one registered session, used to instantiate
theorems with hypotheses. -/
def sampleManager : ManagerState :=
  { min_port := 8000
  , max_port := 9000
  , servers := [(("a"), { port := 8000 })]
  , last_port := 8000 }

/-- `sampleManager` together with its one live backend. -/
def sampleSys : Sys := { mgr := sampleManager, backends := [8000] }

/-- A concrete backend behaviour for instantiating theorems. -/
def sampleBackend : Int → HttpRequest → HttpResponse :=
  fun _ req => { status_code := 200, headers := [(("x"), ("y"))], body := req.body }

/-- A concrete inbound request carrying a `Host` header. -/
def sampleRequest : HttpRequest :=
  { method := ("GET")
  , headers := [(("host"), ("foo")), (("x-a"), ("1"))]
  , body := ("B") }

theorem mapGet_mapSet_self {α : Type} (m : List (String × α)) (k : String)
    (v : α) : mapGet (mapSet m k v) k = some v := by
  induction m with
  | nil => simp [mapSet, mapGet]
  | cons hd tl ih =>
      obtain ⟨k', v'⟩ := hd
      by_cases h : k' = k
      · simp [mapSet, h, mapGet]
      · simp [mapSet, h, mapGet, ih]

theorem mapGet_mapSet_ne {α : Type} (m : List (String × α)) (k q : String)
    (v : α) (h : q ≠ k) : mapGet (mapSet m k v) q = mapGet m q := by
  have hkq : ¬(k = q) := fun hh => h hh.symm
  induction m with
  | nil => simp [mapSet, mapGet, hkq]
  | cons hd tl ih =>
      obtain ⟨k', v'⟩ := hd
      by_cases hk : k' = k
      · subst hk
        simp [mapSet, mapGet, hkq]
      · simp [mapSet, hk, mapGet, ih]

theorem mapGet_mapRemove_ne {α : Type} (m : List (String × α)) (k q : String)
    (h : q ≠ k) : mapGet (mapRemove m k) q = mapGet m q := by
  have hkq : ¬(k = q) := fun hh => h hh.symm
  induction m with
  | nil => simp [mapRemove]
  | cons hd tl ih =>
      obtain ⟨k', v'⟩ := hd
      by_cases hk : k' = k
      · subst hk
        simp [mapRemove, mapGet, hkq]
      · simp [mapRemove, hk, mapGet, ih]

theorem mapGet_eq_none_iff {α : Type} (m : List (String × α)) (k : String) :
    mapGet m k = none ↔ ∀ pr ∈ m, pr.1 ≠ k := by
  induction m with
  | nil => simp [mapGet]
  | cons hd tl ih =>
      obtain ⟨k', v'⟩ := hd
      by_cases h : k' = k
      · simp [mapGet, h]
      · simp [mapGet, h, ih]

theorem mapGet_mapRemove_self {α : Type} (m : List (String × α)) (k : String)
    (hk : (m.map Prod.fst).Nodup) : mapGet (mapRemove m k) k = none := by
  induction m with
  | nil => simp [mapRemove, mapGet]
  | cons hd tl ih =>
      obtain ⟨k', v'⟩ := hd
      simp only [List.map_cons, List.nodup_cons] at hk
      by_cases h : k' = k
      · subst h
        simp only [mapRemove, if_pos rfl]
        rw [mapGet_eq_none_iff]
        intro pr hpr hpk
        exact hk.1 (hpk ▸ List.mem_map_of_mem Prod.fst hpr)
      · simp [mapRemove, h, mapGet, ih hk.2]

theorem mem_mapSet {α : Type} {m : List (String × α)} {k : String} {v : α}
    {pr : String × α} (h : pr ∈ mapSet m k v) : pr = (k, v) ∨ pr ∈ m := by
  induction m with
  | nil =>
      simp only [mapSet, List.mem_singleton] at h
      exact Or.inl h
  | cons hd tl ih =>
      obtain ⟨k', v'⟩ := hd
      by_cases hk : k' = k
      · simp only [mapSet, if_pos hk, List.mem_cons] at h
        rcases h with h | h
        · exact Or.inl h
        · exact Or.inr (List.mem_cons_of_mem _ h)
      · simp only [mapSet, if_neg hk, List.mem_cons] at h
        rcases h with h | h
        · exact Or.inr (h ▸ List.mem_cons_self _ _)
        · rcases ih h with h' | h'
          · exact Or.inl h'
          · exact Or.inr (List.mem_cons_of_mem _ h')

theorem mapRemove_sublist {α : Type} (m : List (String × α)) (k : String) :
    (mapRemove m k).Sublist m := by
  induction m with
  | nil => simp [mapRemove]
  | cons hd tl ih =>
      obtain ⟨k', v'⟩ := hd
      by_cases h : k' = k
      · rw [mapRemove, if_pos h]
        exact List.sublist_cons_self (k', v') tl
      · rw [mapRemove, if_neg h]
        exact List.Sublist.cons₂ (k', v') ih

theorem keys_nodup_mapSet {α : Type} (m : List (String × α)) (k : String)
    (v : α) (h : (m.map Prod.fst).Nodup) :
    ((mapSet m k v).map Prod.fst).Nodup := by
  induction m with
  | nil => simp [mapSet]
  | cons hd tl ih =>
      obtain ⟨k', v'⟩ := hd
      simp only [List.map_cons, List.nodup_cons] at h
      by_cases hk : k' = k
      · subst hk
        simpa [mapSet, List.nodup_cons] using h
      · simp only [mapSet, if_neg hk, List.map_cons, List.nodup_cons]
        refine ⟨?_, ih h.2⟩
        intro hmem
        rcases List.mem_map.1 hmem with ⟨pr, hpr, hfst⟩
        rcases mem_mapSet hpr with h' | h'
        · exact hk (by rw [h'] at hfst; exact hfst.symm ▸ rfl)
        · exact h.1 (hfst ▸ List.mem_map_of_mem Prod.fst h')

theorem values_nodup_mapSet {α β : Type} (f : α → β) (m : List (String × α))
    (k : String) (v : α) (hm : (m.map (fun pr => f pr.2)).Nodup)
    (hv : f v ∉ m.map (fun pr => f pr.2)) :
    ((mapSet m k v).map (fun pr => f pr.2)).Nodup := by
  induction m with
  | nil => simp [mapSet]
  | cons hd tl ih =>
      obtain ⟨k', v'⟩ := hd
      simp only [List.map_cons, List.nodup_cons, List.mem_cons] at hm hv
      push_neg at hv
      by_cases hk : k' = k
      · subst hk
        have hms : mapSet ((k', v') :: tl) k' v = (k', v) :: tl := by
          simp [mapSet]
        rw [hms]
        simp only [List.map_cons, List.nodup_cons]
        exact ⟨hv.2, hm.2⟩
      · simp only [mapSet, if_neg hk, List.map_cons, List.nodup_cons]
        refine ⟨?_, ih hm.2 hv.2⟩
        intro hmem
        rcases List.mem_map.1 hmem with ⟨pr, hpr, hval⟩
        rcases mem_mapSet hpr with h' | h'
        · subst h'
          exact hv.1 hval
        · exact hm.1 (hval ▸ List.mem_map_of_mem (fun pr => f pr.2) h')

theorem mapGet_some_decomp {α : Type} (m : List (String × α)) (k : String)
    (v : α) (hk : (m.map Prod.fst).Nodup) (h : mapGet m k = some v) :
    ∃ l1 l2, m = l1 ++ (k, v) :: l2 ∧ mapRemove m k = l1 ++ l2 ∧
      k ∉ (l1 ++ l2).map Prod.fst := by
  induction m with
  | nil => simp [mapGet] at h
  | cons hd tl ih =>
      obtain ⟨k', v'⟩ := hd
      simp only [List.map_cons, List.nodup_cons] at hk
      by_cases hkk : k' = k
      · subst hkk
        have hv' : v' = v := by simpa [mapGet] using h
        subst hv'
        refine ⟨[], tl, by simp, by simp [mapRemove], ?_⟩
        simpa using hk.1
      · simp only [mapGet, if_neg hkk] at h
        rcases ih hk.2 h with ⟨l1, l2, hm, hr, hnot⟩
        refine ⟨(k', v') :: l1, l2, by simp [hm], ?_, ?_⟩
        · simp [mapRemove, hkk, hr]
        · simp only [List.cons_append, List.map_cons, List.mem_cons]
          rintro (h' | h')
          · exact hkk h'.symm
          · exact hnot h'

theorem port_range_size_pos (st : ManagerState)
    (h : st.min_port ≤ st.max_port) : 0 < st.port_range_size := by
  unfold ManagerState.port_range_size
  omega

theorem start_port_bounds (st : ManagerState)
    (h : st.min_port ≤ st.max_port) :
    st.min_port ≤ st.start_port ∧ st.start_port ≤ st.max_port := by
  have hn := port_range_size_pos st h
  have h1 : 0 ≤ (st.last_port + 1 - st.min_port) % st.port_range_size :=
    Int.emod_nonneg _ (ne_of_gt hn)
  have h2 : (st.last_port + 1 - st.min_port) % st.port_range_size
      < st.port_range_size := Int.emod_lt_of_pos _ hn
  unfold ManagerState.start_port
  unfold ManagerState.port_range_size at *
  omega

theorem emod_of_lt_two_mul (x n : Int) (h0 : 0 ≤ x) (h2 : x < 2 * n)
    (hn : 0 < n) : x % n = x ∨ x % n = x - n := by
  rcases lt_or_le x n with h | h
  · exact Or.inl (Int.emod_eq_of_lt h0 h)
  · right
    have hstep : ((x - n) + n * 1) % n = (x - n) % n :=
      Int.add_mul_emod_self_left (x - n) n 1
    have hx : (x - n) + n * 1 = x := by ring
    rw [hx] at hstep
    rw [hstep, Int.emod_eq_of_lt (by omega) (by omega)]

theorem portAt_bounds (st : ManagerState) (h : st.min_port ≤ st.max_port)
    (o : Nat) : st.min_port ≤ st.portAt o ∧ st.portAt o ≤ st.max_port := by
  have hn := port_range_size_pos st h
  have h1 : 0 ≤ (st.start_port - st.min_port + (o : Int)) % st.port_range_size :=
    Int.emod_nonneg _ (ne_of_gt hn)
  have h2 : (st.start_port - st.min_port + (o : Int)) % st.port_range_size
      < st.port_range_size := Int.emod_lt_of_pos _ hn
  unfold ManagerState.portAt
  unfold ManagerState.port_range_size at *
  omega

theorem portAt_inj (st : ManagerState) (h : st.min_port ≤ st.max_port)
    {o1 o2 : Nat} (h1 : (o1 : Int) < st.port_range_size)
    (h2 : (o2 : Int) < st.port_range_size)
    (he : st.portAt o1 = st.portAt o2) : o1 = o2 := by
  have hn := port_range_size_pos st h
  have hsb := start_port_bounds st h
  have ha0 : 0 ≤ st.start_port - st.min_port := by omega
  have ha1 : st.start_port - st.min_port < st.port_range_size := by
    unfold ManagerState.port_range_size
    omega
  unfold ManagerState.portAt at he
  have he' : (st.start_port - st.min_port + (o1 : Int)) % st.port_range_size
      = (st.start_port - st.min_port + (o2 : Int)) % st.port_range_size := by
    omega
  rcases emod_of_lt_two_mul (st.start_port - st.min_port + (o1 : Int))
      st.port_range_size (by omega) (by omega) hn with hA | hA <;>
    rcases emod_of_lt_two_mul (st.start_port - st.min_port + (o2 : Int))
        st.port_range_size (by omega) (by omega) hn with hB | hB <;>
      (rw [hA, hB] at he'; omega)

theorem emod_absorb_left (a y n : Int) : (a + y % n) % n = (a + y) % n := by
  have h1 : a + y % n = (a + y) + n * (-(y / n)) := by
    rw [Int.emod_def]
    ring
  rw [h1, Int.add_mul_emod_self_left]

theorem mem_triedPorts (st : ManagerState) (h : st.min_port ≤ st.max_port)
    (p : Int) :
    p ∈ st.triedPorts ↔ (st.min_port ≤ p ∧ p ≤ st.max_port) := by
  have hn := port_range_size_pos st h
  constructor
  · intro hp
    unfold ManagerState.triedPorts at hp
    rcases List.mem_map.1 hp with ⟨o, _, rfl⟩
    exact portAt_bounds st h o
  · intro hp
    have hsb := start_port_bounds st h
    have hm0 : 0 ≤ (p - st.start_port) % st.port_range_size :=
      Int.emod_nonneg _ (ne_of_gt hn)
    have hm1 : (p - st.start_port) % st.port_range_size < st.port_range_size :=
      Int.emod_lt_of_pos _ hn
    refine List.mem_map.2
      ⟨((p - st.start_port) % st.port_range_size).toNat, ?_, ?_⟩
    · refine List.mem_range.2 ?_
      omega
    · have hcast : ((((p - st.start_port) % st.port_range_size).toNat : Nat)
          : Int) = (p - st.start_port) % st.port_range_size :=
        Int.toNat_of_nonneg hm0
      unfold ManagerState.portAt
      rw [hcast, emod_absorb_left]
      have harg : st.start_port - st.min_port + (p - st.start_port)
          = p - st.min_port := by ring
      rw [harg, Int.emod_eq_of_lt (by omega)
        (by unfold ManagerState.port_range_size; omega)]
      omega

theorem triedPorts_nodup (st : ManagerState)
    (h : st.min_port ≤ st.max_port) : st.triedPorts.Nodup := by
  unfold ManagerState.triedPorts
  refine List.Nodup.map_on ?_ (List.nodup_range _)
  intro o1 ho1 o2 ho2 he
  have hn := port_range_size_pos st h
  refine portAt_inj st h ?_ ?_ he
  · have := List.mem_range.1 ho1
    omega
  · have := List.mem_range.1 ho2
    omega

theorem triedPorts_length (st : ManagerState) :
    st.triedPorts.length = st.port_range_size.toNat := by
  unfold ManagerState.triedPorts
  rw [List.length_map, List.length_range]

theorem triedPorts_head (st : ManagerState)
    (h : st.min_port ≤ st.max_port) :
    st.triedPorts.head? = some st.start_port := by
  have hn := port_range_size_pos st h
  have h0 : st.portAt 0 = st.start_port := by
    have hsb := start_port_bounds st h
    unfold ManagerState.portAt
    rw [show ((0 : Nat) : Int) = 0 from rfl, add_zero,
      Int.emod_eq_of_lt (by omega)
        (by unfold ManagerState.port_range_size; omega)]
    omega
  obtain ⟨k, hk⟩ : ∃ k, st.port_range_size.toNat = k + 1 :=
    ⟨st.port_range_size.toNat - 1, by omega⟩
  unfold ManagerState.triedPorts
  rw [hk, List.range_succ_eq_map]
  simp only [List.map_cons, List.head?_cons]
  rw [h0]

theorem start_port_eq_succ (st : ManagerState)
    (h1 : st.min_port - 1 ≤ st.last_port)
    (h2 : st.last_port < st.max_port) :
    st.start_port = st.last_port + 1 := by
  unfold ManagerState.start_port
  rw [Int.emod_eq_of_lt (by omega)
    (by unfold ManagerState.port_range_size; omega)]
  omega

theorem start_port_wrap (st : ManagerState)
    (h2 : st.last_port = st.max_port) : st.start_port = st.min_port := by
  unfold ManagerState.start_port
  rw [show st.last_port + 1 - st.min_port = st.port_range_size by
    unfold ManagerState.port_range_size; omega]
  rw [Int.emod_self]
  omega

/-- C1: scanning begins at `lastPort + 1` wrapping modulo the range size back
to `minPort`; each port in `[minPort, maxPort]` is tried exactly once in
round-robin order; the first port the allocator can momentarily bind is
returned and recorded as the new `lastPort`; and if none of the
`maxPort - minPort + 1` ports is free the call fails with the
`RuntimeError` playing the role of `PortRangeExhausted`. -/
theorem start_server_round_robin (busy : Int → Bool) (st : ManagerState)
    (server_id : String) (hrange : st.min_port ≤ st.max_port)
    (hlast1 : st.min_port - 1 ≤ st.last_port) :
    (st.last_port < st.max_port →
      st.triedPorts.head? = some (st.last_port + 1)) ∧
    (st.last_port = st.max_port →
      st.triedPorts.head? = some st.min_port) ∧
    st.triedPorts.Nodup ∧
    (∀ p : Int, p ∈ st.triedPorts ↔
      (st.min_port ≤ p ∧ p ≤ st.max_port)) ∧
    st.triedPorts.length = (st.max_port - st.min_port + 1).toNat ∧
    (match start_server busy st server_id with
     | Except.ok (st', server) =>
         busy server.port = false ∧
         st.triedPorts.find? (fun p => ! busy p) = some server.port ∧
         st'.last_port = server.port ∧
         mapGet st'.servers server_id = some server
     | Except.error _ =>
         ∀ p, st.min_port ≤ p → p ≤ st.max_port → busy p = true) := by
  refine ⟨?_, ?_, triedPorts_nodup st hrange, mem_triedPorts st hrange,
    triedPorts_length st, ?_⟩
  · intro hlt
    rw [triedPorts_head st hrange, start_port_eq_succ st hlast1 hlt]
  · intro heq
    rw [triedPorts_head st hrange, start_port_wrap st heq]
  · cases hcase : st.triedPorts.find? (fun p => ! busy p) with
    | some port =>
        simp only [start_server, hcase]
        refine ⟨?_, trivial, trivial, mapGet_mapSet_self _ _ _⟩
        have := List.find?_some hcase
        simpa using this
    | none =>
        simp only [start_server, hcase]
        intro p hp1 hp2
        have hmem : p ∈ st.triedPorts := (mem_triedPorts st hrange p).2 ⟨hp1, hp2⟩
        have := List.find?_eq_none.1 hcase p hmem
        simpa using this

/-- Witness for C1: range 8000-8002, fresh manager, port 8000 externally
busy; the allocator starts at 8000 and returns 8001. -/
theorem start_server_round_robin_witness :
    ((initManager 8000 8002).last_port < (initManager 8000 8002).max_port →
      (initManager 8000 8002).triedPorts.head?
        = some ((initManager 8000 8002).last_port + 1)) ∧
    ((initManager 8000 8002).last_port = (initManager 8000 8002).max_port →
      (initManager 8000 8002).triedPorts.head?
        = some (initManager 8000 8002).min_port) ∧
    (initManager 8000 8002).triedPorts.Nodup ∧
    (∀ p : Int, p ∈ (initManager 8000 8002).triedPorts ↔
      ((initManager 8000 8002).min_port ≤ p ∧
        p ≤ (initManager 8000 8002).max_port)) ∧
    (initManager 8000 8002).triedPorts.length
      = ((initManager 8000 8002).max_port
          - (initManager 8000 8002).min_port + 1).toNat ∧
    (match start_server (fun p => decide (p = 8000)) (initManager 8000 8002)
        ("a") with
     | Except.ok (st', server) =>
         (fun p => decide (p = 8000)) server.port = false ∧
         (initManager 8000 8002).triedPorts.find?
           (fun p => ! (fun q => decide (q = 8000)) p) = some server.port ∧
         st'.last_port = server.port ∧
         mapGet st'.servers ("a") = some server
     | Except.error _ =>
         ∀ p, (initManager 8000 8002).min_port ≤ p →
           p ≤ (initManager 8000 8002).max_port →
             (fun q => decide (q = 8000)) p = true) :=
  start_server_round_robin (fun p => decide (p = 8000))
    (initManager 8000 8002) ("a") (by decide) (by decide)

/-- C4: for every forwarded HTTP request to a registered session, the request
sent to the backend has the inbound `Host` header removed and
`Accept-Encoding` forced to `identity`, while the method, all remaining
headers, and the full request body are forwarded unchanged. -/
theorem proxy_request_rewrite (st : ManagerState)
    (backend : Int → HttpRequest → HttpResponse) (server_id : String)
    (req : HttpRequest) (server : ViserServer)
    (hkeys : (req.headers.map Prod.fst).Nodup)
    (hreg : mapGet st.servers server_id = some server) :
    proxy st backend server_id req =
      { status_code := (backend server.get_port (proxiedRequest req)).status_code
      , headers := (backend server.get_port (proxiedRequest req)).headers
      , body := (backend server.get_port (proxiedRequest req)).body } ∧
    mapGet (proxiedRequest req).headers ("host") = none ∧
    mapGet (proxiedRequest req).headers ("accept-encoding")
      = some ("identity") ∧
    (∀ k, k ≠ ("host") → k ≠ ("accept-encoding") →
      mapGet (proxiedRequest req).headers k = mapGet req.headers k) ∧
    (proxiedRequest req).method = req.method ∧
    (proxiedRequest req).body = req.body := by
  refine ⟨by simp [proxy, hreg], ?_, ?_, ?_, rfl, rfl⟩
  · show mapGet (mapSet (mapRemove req.headers ("host")) ("accept-encoding")
      ("identity")) ("host") = none
    rw [mapGet_mapSet_ne _ _ _ _ (by decide),
      mapGet_mapRemove_self _ _ hkeys]
  · exact mapGet_mapSet_self _ _ _
  · intro k hk1 hk2
    show mapGet (mapSet (mapRemove req.headers ("host")) ("accept-encoding")
      ("identity")) k = mapGet req.headers k
    rw [mapGet_mapSet_ne _ _ _ _ hk2, mapGet_mapRemove_ne _ _ _ hk1]

/-- Witness for C4 at a concrete registered session and request. -/
theorem proxy_request_rewrite_witness :
    proxy sampleManager sampleBackend ("a") sampleRequest =
      { status_code :=
          (sampleBackend (ViserServer.get_port { port := 8000 })
            (proxiedRequest sampleRequest)).status_code
      , headers :=
          (sampleBackend (ViserServer.get_port { port := 8000 })
            (proxiedRequest sampleRequest)).headers
      , body :=
          (sampleBackend (ViserServer.get_port { port := 8000 })
            (proxiedRequest sampleRequest)).body } ∧
    mapGet (proxiedRequest sampleRequest).headers ("host") = none ∧
    mapGet (proxiedRequest sampleRequest).headers ("accept-encoding")
      = some ("identity") ∧
    (∀ k, k ≠ ("host") → k ≠ ("accept-encoding") →
      mapGet (proxiedRequest sampleRequest).headers k
        = mapGet sampleRequest.headers k) ∧
    (proxiedRequest sampleRequest).method = sampleRequest.method ∧
    (proxiedRequest sampleRequest).body = sampleRequest.body :=
  proxy_request_rewrite sampleManager sampleBackend ("a") sampleRequest
    { port := 8000 } (by decide) rfl

/-- C5: for every forwarded HTTP request to a registered session, the status
code, headers, and body returned to the client equal exactly what the backend
produced. -/
theorem proxy_response_roundtrip (st : ManagerState)
    (backend : Int → HttpRequest → HttpResponse) (server_id : String)
    (req : HttpRequest) (server : ViserServer)
    (hreg : mapGet st.servers server_id = some server) :
    (proxy st backend server_id req).status_code
      = (backend server.get_port (proxiedRequest req)).status_code ∧
    (proxy st backend server_id req).headers
      = (backend server.get_port (proxiedRequest req)).headers ∧
    (proxy st backend server_id req).body
      = (backend server.get_port (proxiedRequest req)).body := by
  refine ⟨?_, ?_, ?_⟩ <;> simp [proxy, hreg]

/-- Witness for C5 at a concrete registered session and request. -/
theorem proxy_response_roundtrip_witness :
    (proxy sampleManager sampleBackend ("a") sampleRequest).status_code
      = (sampleBackend (ViserServer.get_port { port := 8000 })
          (proxiedRequest sampleRequest)).status_code ∧
    (proxy sampleManager sampleBackend ("a") sampleRequest).headers
      = (sampleBackend (ViserServer.get_port { port := 8000 })
          (proxiedRequest sampleRequest)).headers ∧
    (proxy sampleManager sampleBackend ("a") sampleRequest).body
      = (sampleBackend (ViserServer.get_port { port := 8000 })
          (proxiedRequest sampleRequest)).body :=
  proxy_response_roundtrip sampleManager sampleBackend ("a") sampleRequest
    { port := 8000 } rfl

/-- C9: for every session id not present in the registry, an HTTP proxy
request is answered with status 404, and a WebSocket proxy request closes the
client connection with close code 1008 before any backend connection attempt
is made. -/
theorem unknown_session_responses (st : ManagerState)
    (backend : Int → HttpRequest → HttpResponse) (server_id : String)
    (req : HttpRequest) (habs : mapGet st.servers server_id = none) :
    proxy st backend server_id req =
      { status_code := 404, headers := [], body := ("Server not found") } ∧
    websocket_proxy st server_id =
      [WsAction.accept, WsAction.close 1008 ("Not Found")] ∧
    (∀ p : Int, WsAction.connect p ∉ websocket_proxy st server_id) := by
  refine ⟨by simp [proxy, habs], by simp [websocket_proxy, habs], ?_⟩
  intro p hp
  simp [websocket_proxy, habs] at hp

/-- Witness for C9 at a concrete unregistered session id. -/
theorem unknown_session_responses_witness :
    proxy (initManager 8000 9000) sampleBackend ("ghost") sampleRequest =
      { status_code := 404, headers := [], body := ("Server not found") } ∧
    websocket_proxy (initManager 8000 9000) ("ghost") =
      [WsAction.accept, WsAction.close 1008 ("Not Found")] ∧
    (∀ p : Int,
      WsAction.connect p ∉ websocket_proxy (initManager 8000 9000) ("ghost")) :=
  unknown_session_responses (initManager 8000 9000) sampleBackend ("ghost")
    sampleRequest rfl

/-- C10: if `start_server` fails because no port in the configured range is
free, the manager state is unchanged on error: no entry is added to the
session map, no backend server is created, and `_last_port` keeps its
previous value. -/
theorem start_server_error_no_mutation (ext : Int → Bool) (s : Sys)
    (id : String)
    (herr : start_server (busyOf ext s.backends) s.mgr id
      = Except.error ("No available local ports in range")) :
    stepOp ext s (Op.start id) = s ∧
    (∀ st' server, start_server (busyOf ext s.backends) s.mgr id
      ≠ Except.ok (st', server)) := by
  constructor
  · simp [stepOp, herr]
  · intro st' server h
    rw [h] at herr
    exact absurd herr (by simp)

/-- Witness for C10: with every port busy, a `start` leaves the system
unchanged. -/
theorem start_server_error_no_mutation_witness :
    stepOp (fun _ => true) (initSys 8000 8002) (Op.start ("s"))
      = initSys 8000 8002 ∧
    (∀ st' server,
      start_server (busyOf (fun _ => true) (initSys 8000 8002).backends)
        (initSys 8000 8002).mgr ("s") ≠ Except.ok (st', server)) :=
  start_server_error_no_mutation (fun _ => true) (initSys 8000 8002) ("s")
    rfl

/-- C6 (failing input): calling `start_server` twice with the same id on a
fresh manager over range 8000-8002 with no external binds silently overwrites
the mapping.  Afterwards the dict holds only the new server on port 8001,
while the first backend is still live on port 8000 and its port lease is
recorded nowhere — the port is leaked and two live backends exist for one
session identifier, so the call neither rejected the duplicate id nor
stopped the prior backend. -/
theorem start_server_overwrite_leaks :
    (runOps (fun _ => false) (initSys 8000 8002)
      [Op.start ("s"), Op.start ("s")]).mgr.servers
        = [(("s"), { port := 8001 })] ∧
    (runOps (fun _ => false) (initSys 8000 8002)
      [Op.start ("s"), Op.start ("s")]).backends = [8001, 8000] ∧
    (8000 : Int) ∉
      ((runOps (fun _ => false) (initSys 8000 8002)
        [Op.start ("s"), Op.start ("s")]).mgr.servers.map
          (fun pr => pr.2.port)) := by
  decide

/-- C7 (counterexample): `stop_server` called for an id with no active
session raises `KeyError` rather than being a no-op. -/
theorem stop_server_throws_when_absent :
    stop_server (initManager 8000 9000) ("never-started")
      = Except.error ("KeyError") := rfl

/-- C7 (amended): `stop_server` removes the mapping and stops the backend
(releasing its port) when the session exists; when called for an id with no
active session it raises `KeyError` and leaves the state unchanged —
double-stop is not a no-op. -/
theorem stop_server_amended (ext : Int → Bool) (s : Sys) (id : String) :
    (∀ server, mapGet s.mgr.servers id = some server →
      stop_server s.mgr id
        = Except.ok { s.mgr with servers := mapRemove s.mgr.servers id } ∧
      stepOp ext s (Op.stop id) =
        { mgr := { s.mgr with servers := mapRemove s.mgr.servers id }
        , backends := s.backends.erase server.port }) ∧
    (mapGet s.mgr.servers id = none →
      stop_server s.mgr id = Except.error ("KeyError") ∧
      stepOp ext s (Op.stop id) = s) := by
  constructor
  · intro server h
    exact ⟨by simp [stop_server, h], by simp [stepOp, h]⟩
  · intro h
    exact ⟨by simp [stop_server, h], by simp [stepOp, h]⟩

theorem not_mem_of_busyOf_false {ext : Int → Bool} {backends : List Int}
    {p : Int} (h : busyOf ext backends p = false) : p ∉ backends := by
  intro hmem
  unfold busyOf at h
  rw [Bool.or_eq_false_iff] at h
  have htrue : backends.any (fun q => decide (q = p)) = true :=
    List.any_eq_true.2 ⟨p, hmem, by simp⟩
  rw [htrue] at h
  exact absurd h.2 (by simp)

theorem nodup_map_ne {α β : Type} {l : List α} {f : α → β}
    (h : (l.map f).Nodup) {a b : α} (ha : a ∈ l) (hb : b ∈ l)
    (hab : a ≠ b) : f a ≠ f b := by
  obtain ⟨s, t, rfl⟩ := List.append_of_mem ha
  rw [List.map_append, List.map_cons] at h
  have h' := List.nodup_middle.1 h
  have hout : f a ∉ (s.map f ++ t.map f) := (List.nodup_cons.1 h').1
  have hbst : b ∈ s ++ t := by
    rcases List.mem_append.1 hb with h1 | h1
    · exact List.mem_append_left _ h1
    · rcases List.mem_cons.1 h1 with h2 | h2
      · exact (hab h2.symm).elim
      · exact List.mem_append_right _ h2
  intro he
  apply hout
  rw [he]
  have hmap := List.mem_map_of_mem f hbst
  rwa [List.map_append] at hmap

theorem sysInv_step (ext : Int → Bool) (s : Sys) (op : Op)
    (h : SysInv s) : SysInv (stepOp ext s op) := by
  obtain ⟨hb, hkeys, hports, hmem⟩ := h
  cases op with
  | start id =>
      cases hfind : s.mgr.triedPorts.find?
          (fun p => ! busyOf ext s.backends p) with
      | none =>
          simp only [stepOp, start_server, hfind]
          exact ⟨hb, hkeys, hports, hmem⟩
      | some port =>
          simp only [stepOp, start_server, hfind]
          have hfree : busyOf ext s.backends port = false := by
            simpa using List.find?_some hfind
          have hnb : port ∉ s.backends := not_mem_of_busyOf_false hfree
          have hnp : port ∉ s.mgr.servers.map (fun pr => pr.2.port) := by
            intro hmm
            rcases List.mem_map.1 hmm with ⟨pr, hpr, hpp⟩
            exact hnb (hpp ▸ hmem pr hpr)
          refine ⟨List.nodup_cons.2 ⟨hnb, hb⟩,
            keys_nodup_mapSet _ _ _ hkeys,
            values_nodup_mapSet ViserServer.port _ _ _ hports hnp, ?_⟩
          intro pr hpr
          rcases mem_mapSet hpr with h' | h'
          · rw [h']
            exact List.mem_cons_self _ _
          · exact List.mem_cons_of_mem _ (hmem pr h')
  | stop id =>
      cases hget : mapGet s.mgr.servers id with
      | none =>
          simp only [stepOp, hget]
          exact ⟨hb, hkeys, hports, hmem⟩
      | some server =>
          simp only [stepOp, hget]
          obtain ⟨l1, l2, hdec, hrem, hk⟩ :=
            mapGet_some_decomp s.mgr.servers id server hkeys hget
          rw [hrem]
          have hkeys' : ((l1 ++ l2).map Prod.fst).Nodup := by
            have := hkeys
            rw [hdec, List.map_append, List.map_cons] at this
            have hmid := List.nodup_middle.1 this
            rw [List.map_append]
            exact (List.nodup_cons.1 hmid).2
          have hpmid : (server.port :: ((l1 ++ l2).map
              (fun pr => pr.2.port))).Nodup := by
            have := hports
            rw [hdec, List.map_append, List.map_cons] at this
            have hmid := List.nodup_middle.1 this
            rw [List.map_append]
            exact hmid
          have hports' : ((l1 ++ l2).map (fun pr => pr.2.port)).Nodup :=
            (List.nodup_cons.1 hpmid).2
          have hout : server.port ∉ (l1 ++ l2).map (fun pr => pr.2.port) :=
            (List.nodup_cons.1 hpmid).1
          refine ⟨hb.erase _, hkeys', hports', ?_⟩
          intro pr hpr
          have hps : pr ∈ s.mgr.servers := by
            rw [hdec]
            rcases List.mem_append.1 hpr with h1 | h1
            · exact List.mem_append_left _ h1
            · exact List.mem_append_right _ (List.mem_cons_of_mem _ h1)
          have hinb : pr.2.port ∈ s.backends := hmem pr hps
          have hne : pr.2.port ≠ server.port := by
            intro he
            apply hout
            rw [← he]
            exact List.mem_map_of_mem _ hpr
          exact (List.mem_erase_of_ne hne).2 hinb

theorem sysInv_runOps (ext : Int → Bool) (ops : List Op) (s : Sys)
    (h : SysInv s) : SysInv (runOps ext s ops) := by
  induction ops generalizing s with
  | nil => exact h
  | cons op ops ih => exact ih (stepOp ext s op) (sysInv_step ext s op h)

theorem sysInv_init (min_local_port max_local_port : Int) :
    SysInv (initSys min_local_port max_local_port) := by
  refine ⟨List.nodup_nil, ?_, ?_, ?_⟩ <;> simp [initSys, initManager]

/-- C2: for all sequences of `start_server`/`stop_server` calls, no two
concurrently active sessions are ever assigned the same port, and at most
one live port lease exists per port at any time (the live backends' ports
are pairwise distinct). -/
theorem no_port_sharing (ext : Int → Bool)
    (min_local_port max_local_port : Int) (ops : List Op) :
    (∀ pr1 ∈ (runOps ext (initSys min_local_port max_local_port)
        ops).mgr.servers,
     ∀ pr2 ∈ (runOps ext (initSys min_local_port max_local_port)
        ops).mgr.servers,
       pr1.1 ≠ pr2.1 → pr1.2.port ≠ pr2.2.port) ∧
    (runOps ext (initSys min_local_port max_local_port) ops).backends.Nodup
      := by
  have hinv := sysInv_runOps ext ops (initSys min_local_port max_local_port)
    (sysInv_init min_local_port max_local_port)
  refine ⟨?_, hinv.1⟩
  intro pr1 h1 pr2 h2 hne
  have hne' : pr1 ≠ pr2 := fun he => hne (by rw [he])
  exact nodup_map_ne hinv.2.2.1 h1 h2 hne'

/-- Witness for C2: two sessions started on a fresh manager hold distinct
ports. -/
theorem no_port_sharing_witness :
    (∀ pr1 ∈ (runOps (fun _ => false) (initSys 8000 8002)
        [Op.start ("a"), Op.start ("b")]).mgr.servers,
     ∀ pr2 ∈ (runOps (fun _ => false) (initSys 8000 8002)
        [Op.start ("a"), Op.start ("b")]).mgr.servers,
       pr1.1 ≠ pr2.1 → pr1.2.port ≠ pr2.2.port) ∧
    (runOps (fun _ => false) (initSys 8000 8002)
      [Op.start ("a"), Op.start ("b")]).backends.Nodup :=
  no_port_sharing (fun _ => false) 8000 8002 [Op.start ("a"), Op.start ("b")]

theorem mapGet_none_runOps_no_start (ext : Int → Bool) (id : String)
    (ops : List Op) (hops : ∀ op ∈ ops, op ≠ Op.start id) (s : Sys)
    (hnone : mapGet s.mgr.servers id = none) :
    mapGet (runOps ext s ops).mgr.servers id = none := by
  induction ops generalizing s with
  | nil => exact hnone
  | cons op ops ih =>
      have hop : op ≠ Op.start id := hops op (List.mem_cons_self op ops)
      have hops' : ∀ o ∈ ops, o ≠ Op.start id :=
        fun o ho => hops o (List.mem_cons_of_mem op ho)
      have hstep : mapGet (stepOp ext s op).mgr.servers id = none := by
        cases op with
        | start id' =>
            have hne : id ≠ id' := by
              intro he
              exact hop (by rw [he])
            cases hfind : s.mgr.triedPorts.find?
                (fun p => ! busyOf ext s.backends p) with
            | none =>
                simp only [stepOp, start_server, hfind]
                exact hnone
            | some port =>
                simp only [stepOp, start_server, hfind]
                rw [mapGet_mapSet_ne _ _ _ _ hne]
                exact hnone
        | stop id' =>
            cases hget : mapGet s.mgr.servers id' with
            | none =>
                simp only [stepOp, hget]
                exact hnone
            | some server =>
                simp only [stepOp, hget]
                by_cases hii : id = id'
                · subst hii
                  rw [hget] at hnone
                  exact absurd hnone (by simp)
                · rw [mapGet_mapRemove_ne _ _ _ hii]
                  exact hnone
      exact ih hops' (stepOp ext s op) hstep

theorem mapGet_stepOp_stop (ext : Int → Bool) (s : Sys) (id : String)
    (hkeys : (s.mgr.servers.map Prod.fst).Nodup) :
    mapGet (stepOp ext s (Op.stop id)).mgr.servers id = none := by
  cases hget : mapGet s.mgr.servers id with
  | none => simp only [stepOp, hget]
  | some server =>
      simp only [stepOp, hget]
      exact mapGet_mapRemove_self _ _ hkeys

/-- C8: `get_server` fails (raises `KeyError`, the code's `SessionNotFound`)
for every id never passed to `start_server` or already stopped with no
restart since, and is a pure lookup: its success is exactly dict membership
and it takes the state only as input, mutating nothing. -/
theorem get_server_not_found (ext : Int → Bool)
    (min_local_port max_local_port : Int) (id : String) :
    (∀ ops : List Op, (∀ op ∈ ops, op ≠ Op.start id) →
      get_server (runOps ext (initSys min_local_port max_local_port) ops).mgr
        id = Except.error ("KeyError")) ∧
    (∀ ops1 ops2 : List Op, (∀ op ∈ ops2, op ≠ Op.start id) →
      get_server (runOps ext (initSys min_local_port max_local_port)
        (ops1 ++ Op.stop id :: ops2)).mgr id = Except.error ("KeyError")) ∧
    (∀ st server, get_server st id = Except.ok server ↔
      mapGet st.servers id = some server) := by
  refine ⟨?_, ?_, ?_⟩
  · intro ops hops
    have hn := mapGet_none_runOps_no_start ext id ops hops
      (initSys min_local_port max_local_port) rfl
    simp [get_server, hn]
  · intro ops1 ops2 hops
    have hsplit : runOps ext (initSys min_local_port max_local_port)
        (ops1 ++ Op.stop id :: ops2)
        = runOps ext (stepOp ext
            (runOps ext (initSys min_local_port max_local_port) ops1)
            (Op.stop id)) ops2 := by
      unfold runOps
      rw [List.foldl_append]
      rfl
    rw [hsplit]
    have hinv := sysInv_runOps ext ops1
      (initSys min_local_port max_local_port)
      (sysInv_init min_local_port max_local_port)
    have hstop := mapGet_stepOp_stop ext
      (runOps ext (initSys min_local_port max_local_port) ops1) id hinv.2.1
    have hn := mapGet_none_runOps_no_start ext id ops2 hops _ hstop
    simp [get_server, hn]
  · intro st server
    unfold get_server
    cases hget : mapGet st.servers id with
    | none => simp
    | some s' => simp

/-- Witness for C8: an id started and then stopped is not found. -/
theorem get_server_not_found_witness :
    get_server (runOps (fun _ => false) (initSys 8000 8002)
      ([Op.start ("b")] ++ Op.stop ("b") :: [])).mgr ("b")
        = Except.error ("KeyError") :=
  (get_server_not_found (fun _ => false) 8000 8002 ("b")).2.1
    [Op.start ("b")] [] (by decide)

/-- Witness for C7's amended claim at a concrete registered session. -/
theorem stop_server_amended_witness :
    stop_server sampleSys.mgr ("a")
      = Except.ok
          { sampleSys.mgr with
              servers := mapRemove sampleSys.mgr.servers ("a") } ∧
    stepOp (fun _ => false) sampleSys (Op.stop ("a")) =
      { mgr :=
          { sampleSys.mgr with
              servers := mapRemove sampleSys.mgr.servers ("a") }
      , backends :=
          sampleSys.backends.erase (ViserServer.port { port := 8000 }) } :=
  (stop_server_amended (fun _ => false) sampleSys ("a")).1
    { port := 8000 } rfl

end ViserGradioEmbed
